import Mathlib

set_option maxRecDepth 400000

/-!
Verification of the `bland` file-backed JSON configuration store
(source files `src/lib.rs`, `src/crypto.rs`, `src/error.rs`).

Conventions of the shallow embedding:
* Rust byte strings (`Vec<u8>`, `&[u8]`, and `String` viewed through
  `as_bytes`/`from_utf8`) are modelled as `List Nat`, each element a byte.
* Rust `String` values are byte lists that satisfy the `validUtf8` predicate.
* Fallible Rust functions return `Except Error _`; a Rust panic is modelled
  by an outer `Option` whose `none` value means "the call panics".
* External collaborators that the repository only calls (the `json_dotpath`
  resolver, the `serde_json` codec, the `aes_gcm` AEAD cipher, the `flate2`
  compressor and the filesystem) are modelled from the specification's
  capability contracts; each such definition is marked
  `Modelled from the spec:` in its doc comment.
-/

namespace Bland

/-- Errors of the `json_dotpath` crate that the store can surface
(`error.rs` wraps them in `Error::DotPath`).  Modelled from the spec:
the resolver's traversal failure ("unexpected value reached while
traversing path", called `PathTraversalError` by the spec) is
`BadPathElement`; an array-index failure is `BadIndex`. -/
inductive JDPError where
  | BadPathElement
  | BadIndex
deriving DecidableEq, Repr

/-- The error enum of `error.rs`.  Payloads of foreign error types
(`io::Error`, `serde_json::Error`, `FromUtf8Error`) are dropped; the
variant structure is kept (the source's `Io` variant is named `IoError`
here, and `Serde`, `ConfigDir`, `Encryption`, `Decryption` keep their
source names). -/
inductive Error where
  | IoError
  | NotFound
  | DotPath (e : JDPError)
  | Serde
  | ConfigDir
  | InvalidKeyLength
  | Encryption
  | Decryption
  | FromUTF8Error
deriving DecidableEq, Repr

/-- `serde_json::Value`: a JSON tree.  Numbers are modelled as integers
(the claims under verification exercise no floating-point values);
strings and object keys are byte lists. -/
inductive Value where
  | null
  | bool (b : Bool)
  | num (i : Int)
  | str (s : List Nat)
  | arr (l : List Value)
  | obj (m : List (List Nat × Value))

/-- First-match lookup in a JSON object, modelling `serde_json::Map` access. -/
def objGet : List (List Nat × Value) → List Nat → Option Value
  | [], _ => none
  | (k, v) :: t, key => if k = key then some v else objGet t key

/-- Insert-or-replace in a JSON object, modelling `serde_json::Map::insert`. -/
def objSet : List (List Nat × Value) → List Nat → Value → List (List Nat × Value)
  | [], key, v => [(key, v)]
  | (k, w) :: t, key, v => if k = key then (k, v) :: t else (k, w) :: objSet t key v

/-- Is `b` an ASCII decimal digit? -/
def isDigit (b : Nat) : Bool := 48 ≤ b && b ≤ 57

/-- Decimal digit accumulation for `parseIndex`. -/
def digitsToNat : List Nat → Nat → Nat
  | [], acc => acc
  | b :: t, acc => digitsToNat t (acc * 10 + (b - 48))

/-- Modelled from the spec: a path segment used against an array value is
interpreted as a numeric index (`json_dotpath` parses the segment as
`usize`); a non-numeric or empty segment yields no index. -/
def parseIndex (s : List Nat) : Option Nat :=
  if s ≠ [] && s.all isDigit then some (digitsToNat s 0) else none

/-- Modelled from the spec: splitting a dot-separated path string into
segments (`json_dotpath` splits the path on the dot, byte 46). -/
def splitPath : List Nat → List (List Nat)
  | [] => [[]]
  | b :: r =>
    if b = 46 then [] :: splitPath r
    else
      match splitPath r with
      | s :: ss => (b :: s) :: ss
      | [] => [[b]]

/-- Modelled from the spec (§4.1, `json_dotpath::DotPaths::dot_get`):
walk the tree by the segments; a missing key, an index past an array's
length, or a scalar node where a key/index access is attempted yields
"not present" (`none`) rather than failing. -/
def dotGet : Value → List (List Nat) → Option Value
  | v, [] => some v
  | .obj m, s :: rest =>
    match objGet m s with
    | some c => dotGet c rest
    | none => none
  | .arr l, s :: rest =>
    match parseIndex s with
    | some i =>
      match l[i]? with
      | some c => dotGet c rest
      | none => none
    | none => none
  | _, _ :: _ => none

/-- Modelled from the spec (§4.1, `json_dotpath::DotPaths::dot_set`):
walk the tree creating intermediate object nodes for missing segments
(auto-vivification); fail with `BadPathElement` when an intermediate
segment's target exists but is a scalar (string/number/bool/null); the
final segment's slot is overwritten unconditionally.  Array segments
must be numeric indices; a final array index may point at an existing
slot or one past the end (append), otherwise `BadIndex`. -/
def dotSet : Value → List (List Nat) → Value → Except JDPError Value
  | _, [], v => .ok v
  | .obj m, s :: rest, v =>
    match rest with
    | [] => .ok (.obj (objSet m s v))
    | _ :: _ =>
      match objGet m s with
      | some c =>
        match dotSet c rest v with
        | .ok c' => .ok (.obj (objSet m s c'))
        | .error e => .error e
      | none =>
        match dotSet (.obj []) rest v with
        | .ok c' => .ok (.obj (objSet m s c'))
        | .error e => .error e
  | .arr l, s :: rest, v =>
    match parseIndex s with
    | none => .error .BadIndex
    | some i =>
      match rest with
      | [] =>
        if i < l.length then .ok (.arr (l.set i v))
        else if i = l.length then .ok (.arr (l ++ [v]))
        else .error .BadIndex
      | _ :: _ =>
        match l[i]? with
        | some c =>
          match dotSet c rest v with
          | .ok c' => .ok (.arr (l.set i c'))
          | .error e => .error e
        | none => .error .BadIndex
  | .null, _ :: _, _ => .error .BadPathElement
  | .bool _, _ :: _, _ => .error .BadPathElement
  | .num _, _ :: _, _ => .error .BadPathElement
  | .str _, _ :: _, _ => .error .BadPathElement

/-! ### The JSON codec capability

Modelled from the spec (§1, §6): the underlying JSON parser/serializer
(`serde_json`) is an external collaborator "treated as a capability:
parse(bytes) -> tree, serialize(tree) -> bytes".  The model below is an
injective byte encoding of `Value` together with a matching parser; all
produced bytes are ASCII, mirroring the fact that `serde_json` output is
valid UTF-8 text.  Naturals are written in unary (byte 49 repeated,
terminated by byte 59) so that the round-trip proofs stay elementary. -/

/-- Unary encoding of a natural number, terminated by byte 59. -/
def serNat (n : Nat) : List Nat := List.replicate n 49 ++ [59]

/-- Sign byte (43 for nonnegative, 45 for negative) followed by the
unary magnitude. -/
def serInt (i : Int) : List Nat :=
  (if i < 0 then [45] else [43]) ++ serNat i.natAbs

/-- A byte string: its length, then each byte in unary. -/
def serBytes (s : List Nat) : List Nat :=
  serNat s.length ++ (s.map serNat).flatten

mutual

/-- Serialize a `Value` (the model of `serde_json`'s `Value::to_string`).
Tags: 110 null, 116 true, 102 false, 105 num, 115 str, 97 arr, 111 obj. -/
def ser : Value → List Nat
  | .null => [110]
  | .bool true => [116]
  | .bool false => [102]
  | .num i => 105 :: serInt i
  | .str s => 115 :: serBytes s
  | .arr l => 97 :: (serNat l.length ++ serList l)
  | .obj m => 111 :: (serNat m.length ++ serKVs m)

/-- Serialize the elements of an array in order. -/
def serList : List Value → List Nat
  | [] => []
  | v :: t => ser v ++ serList t

/-- Serialize the key/value pairs of an object in order. -/
def serKVs : List (List Nat × Value) → List Nat
  | [] => []
  | (k, v) :: t => serBytes k ++ ser v ++ serKVs t

end

/-- Parse a unary natural: leading 49s up to a 59. -/
def parseNat : List Nat → Option (Nat × List Nat)
  | [] => none
  | b :: r =>
    if b = 59 then some (0, r)
    else if b = 49 then
      match parseNat r with
      | some (n, r') => some (n + 1, r')
      | none => none
    else none

/-- Parse a signed integer: a sign byte then a unary magnitude. -/
def parseInt : List Nat → Option (Int × List Nat)
  | [] => none
  | b :: r =>
    if b = 43 then
      match parseNat r with
      | some (n, r') => some ((n : Int), r')
      | none => none
    else if b = 45 then
      match parseNat r with
      | some (n, r') => some (-(n : Int), r')
      | none => none
    else none

/-- Parse `n` unary naturals in sequence. -/
def parseNats : Nat → List Nat → Option (List Nat × List Nat)
  | 0, r => some ([], r)
  | n + 1, r =>
    match parseNat r with
    | some (b, r') =>
      match parseNats n r' with
      | some (bs, r'') => some (b :: bs, r'')
      | none => none
    | none => none

/-- Parse a byte string: a length then that many unary bytes. -/
def parseBytes (r : List Nat) : Option (List Nat × List Nat) :=
  match parseNat r with
  | some (n, r') => parseNats n r'
  | none => none

mutual

/-- Fueled parser for the `Value` encoding; the fuel only bounds the
recursion depth (one unit per parsed value), it never changes the result
when sufficient. -/
def parseVal : Nat → List Nat → Option (Value × List Nat)
  | 0, _ => none
  | _ + 1, [] => none
  | f + 1, c :: cs =>
    if c = 110 then some (.null, cs)
    else if c = 116 then some (.bool true, cs)
    else if c = 102 then some (.bool false, cs)
    else if c = 105 then
      match parseInt cs with
      | some (i, r) => some (.num i, r)
      | none => none
    else if c = 115 then
      match parseBytes cs with
      | some (s, r) => some (.str s, r)
      | none => none
    else if c = 97 then
      match parseNat cs with
      | some (n, r) =>
        match parseMany f n r with
        | some (l, r') => some (.arr l, r')
        | none => none
      | none => none
    else if c = 111 then
      match parseNat cs with
      | some (n, r) =>
        match parseKVs f n r with
        | some (m, r') => some (.obj m, r')
        | none => none
      | none => none
    else none

/-- Parse `n` consecutive values. -/
def parseMany : Nat → Nat → List Nat → Option (List Value × List Nat)
  | _, 0, r => some ([], r)
  | 0, _ + 1, _ => none
  | f + 1, n + 1, r =>
    match parseVal f r with
    | some (v, r') =>
      match parseMany f n r' with
      | some (l, r'') => some (v :: l, r'')
      | none => none
    | none => none

/-- Parse `n` consecutive key/value pairs. -/
def parseKVs : Nat → Nat → List Nat → Option (List (List Nat × Value) × List Nat)
  | _, 0, r => some ([], r)
  | 0, _ + 1, _ => none
  | f + 1, n + 1, r =>
    match parseBytes r with
    | some (k, r') =>
      match parseVal f r' with
      | some (v, r'') =>
        match parseKVs f n r'' with
        | some (m, r''') => some ((k, v) :: m, r''')
        | none => none
      | none => none
    | none => none

end

/-- The model of `Store::parse_json` / `serde_json::from_str`: a byte
string parses when the fueled parser consumes it entirely; otherwise the
`Serde` error of `error.rs` is produced. -/
def parseJson (s : List Nat) : Except Error Value :=
  match parseVal (s.length + 1) s with
  | some (v, []) => .ok v
  | _ => .error .Serde

/-! ### UTF-8 validation

`String::from_utf8` (used by `lib.rs` on the plain read path and by
`crypto.rs` on decrypted bytes) and `read_to_string` (compressed read
path) succeed exactly on valid UTF-8 byte sequences; the validator below
follows the UTF-8 well-formedness table (RFC 3629). -/

/-- Is `b` a UTF-8 continuation byte (10xxxxxx)? -/
def isCont (b : Nat) : Bool := 128 ≤ b && b ≤ 191

mutual

/-- UTF-8 well-formedness of a byte sequence: an ASCII byte stands
alone; any other lead byte is checked, together with its continuation
bytes, by `validMulti`. -/
def validUtf8 : List Nat → Bool
  | [] => true
  | c :: rest => if c ≤ 127 then validUtf8 rest else validMulti c rest

/-- The multi-byte sequences of the UTF-8 well-formedness table
(RFC 3629), for a non-ASCII lead byte `c`: two-byte leads 194-223,
three-byte leads 224-239 (with the overlong window 160-191 after 224 and
the surrogate window 128-159 after 237), four-byte leads 240-244 (with
the windows after 240 and 244); anything else — truncated sequences and
invalid lead bytes alike — is rejected. -/
def validMulti (c : Nat) : List Nat → Bool
  | [] => false
  | c1 :: r1 =>
    if 194 ≤ c && c ≤ 223 then isCont c1 && validUtf8 r1
    else
      match r1 with
      | [] => false
      | c2 :: r2 =>
        if c = 224 then (160 ≤ c1 && c1 ≤ 191) && isCont c2 && validUtf8 r2
        else if (225 ≤ c && c ≤ 236) || c = 238 || c = 239 then
          isCont c1 && isCont c2 && validUtf8 r2
        else if c = 237 then (128 ≤ c1 && c1 ≤ 159) && isCont c2 && validUtf8 r2
        else
          match r2 with
          | [] => false
          | c3 :: r3 =>
            if c = 240 then
              (144 ≤ c1 && c1 ≤ 191) && isCont c2 && isCont c3 && validUtf8 r3
            else if 241 ≤ c && c ≤ 243 then
              isCont c1 && isCont c2 && isCont c3 && validUtf8 r3
            else if c = 244 then
              (128 ≤ c1 && c1 ≤ 143) && isCont c2 && isCont c3 && validUtf8 r3
            else false

end

/-- `String::from_utf8` on a byte vector: the bytes themselves on valid
UTF-8 input (a Rust `String` is modelled by its bytes), otherwise the
`FromUTF8Error` variant of `error.rs`. -/
def fromUtf8 (l : List Nat) : Except Error (List Nat) :=
  if validUtf8 l then .ok l else .error .FromUTF8Error

/-! ### The AEAD cipher capability

Modelled from the spec (§1, §6, glossary): the `aes_gcm` crate is an
external collaborator "treated as a capability: seal(key, nonce,
plaintext) -> ciphertext+tag, open(key, nonce, ciphertext+tag) ->
plaintext | failure", where "decryption fails closed on tampering" and
the tag is 16 bytes.  The model appends to the plaintext a 16-byte tag
derived from key, nonce and plaintext; `openAEAD` recomputes and checks
the tag, failing closed on any mismatch. -/

/-- The 16-byte authentication tag of the modelled AEAD cipher. -/
def mkTag (key nonce body : List Nat) : List Nat :=
  List.replicate 16 ((key.sum + nonce.sum + body.sum) % 256)

/-- Modelled from the spec: AEAD seal — ciphertext plus 16-byte tag. -/
def sealAEAD (key nonce pt : List Nat) : List Nat :=
  pt ++ mkTag key nonce pt

/-- Modelled from the spec: AEAD open — splits off the 16-byte tag,
recomputes it and fails closed (`none`) on any mismatch. -/
def openAEAD (key nonce ct : List Nat) : Option (List Nat) :=
  if ct.length < 16 then none
  else
    let body := ct.take (ct.length - 16)
    let tag := ct.drop (ct.length - 16)
    if tag = mkTag key nonce body then some body else none

/-! ### The compressor capability

Modelled from the spec (§1, §6): the `flate2` compressor is an external
collaborator "treated as a capability: compress(bytes)->bytes,
decompress(bytes)->bytes|failure".  The model prefixes the gzip magic
bytes 31, 139; `decompress` fails (an I/O-class error, surfaced as
`Error::Io`) unless the stream carries that prefix. -/

/-- Modelled from the spec: compression of a byte stream. -/
def compress (bs : List Nat) : List Nat := 31 :: 139 :: bs

/-- Modelled from the spec: decompression, failing on invalid streams. -/
def decompress : List Nat → Except Error (List Nat)
  | 31 :: 139 :: bs => .ok bs
  | _ => .error .IoError

/-! ### `crypto.rs` -/

/-- `crypto::encrypt_data` (`crypto.rs` lines 8-21): generate a fresh
random 12-byte nonce — here passed in as the `nonce` argument, making
the random source explicit — seal the plaintext under (key, nonce), and
return `nonce ++ ciphertext_with_tag`.  The modelled seal is total, so
the source's `Err(Error::Encryption)` branch is unreachable. -/
def encryptData (data : List Nat) (key : List Nat) (nonce : List Nat) :
    Except Error (List Nat) :=
  .ok (nonce ++ sealAEAD key nonce data)

/-- `crypto::decrypt_data` (`crypto.rs` lines 26-39): split the input at
byte 12 into nonce and ciphertext (`split_at(12)` panics — modelled as
`none` — when the input is shorter than 12 bytes), open under
(key, nonce), and interpret the recovered bytes as UTF-8.  Both an
authentication failure and an invalid-UTF-8 plaintext are mapped to
`Error::Decryption` by the source. -/
def decryptData (data : List Nat) (key : List Nat) :
    Option (Except Error (List Nat)) :=
  if data.length < 12 then none
  else
    let nonce := data.take 12
    let ct := data.drop 12
    match openAEAD key nonce ct with
    | some pt =>
      if validUtf8 pt then some (.ok pt) else some (.error .Decryption)
    | none => some (.error .Decryption)

/-! ### `lib.rs`: store configuration, filesystem state and operations -/

/-- The configuration fields of `Store` (`lib.rs` lines 26-42).  The
root `path` is kept separately (as a component list) by the path
functions; names are byte strings. -/
structure Config where
  projectName : List Nat
  configName : List Nat
  fileExtension : List Nat
  projectSuffix : List Nat
  encryptionKey : Option (List Nat)
  compressed : Bool
deriving DecidableEq, Repr

/-- Modelled from the spec: the filesystem as seen by one store — the
storage directory's existence and the storage file's content (`none`
when the file does not exist). -/
structure FS where
  dir : Bool
  file : Option (List Nat)
deriving Repr

/-- `Store::store_exists` (`lib.rs` lines 254-256). -/
def storeExists (fs : FS) : Bool := fs.file.isSome

/-- `Store::store_dir_exists` (`lib.rs` lines 249-251). -/
def storeDirExists (fs : FS) : Bool := fs.dir

/-- The transform applied by `Store::write_store` (`lib.rs` lines
272-289) to the serialized document before it reaches the disk: encrypt
when a key is configured (taking precedence), else compress when the
compression flag is set, else the plain bytes. -/
def wrapData (cfg : Config) (data nonce : List Nat) : Except Error (List Nat) :=
  match cfg.encryptionKey with
  | some key => encryptData data key nonce
  | none => if cfg.compressed then .ok (compress data) else .ok data

/-- `Store::write_store` (`lib.rs` lines 272-289): wrap the serialized
document and overwrite the storage file with the result. -/
def writeStore (cfg : Config) (fs : FS) (data nonce : List Nat) :
    Except Error FS :=
  match wrapData cfg data nonce with
  | .ok bs => .ok { fs with file := some bs }
  | .error e => .error e

/-- The inverse transform applied by `Store::get_store_as_parsed_json`
(`lib.rs` lines 298-320) to the raw file bytes: decrypt when a key is
configured (taking precedence), else decompress-and-UTF-8-decode when
the compression flag is set (`read_to_string` surfaces invalid UTF-8 as
an I/O error), else UTF-8-decode the bytes.  The outer `Option` is
`none` when `decrypt_data` panics. -/
def unwrapData (cfg : Config) (data : List Nat) :
    Option (Except Error (List Nat)) :=
  match cfg.encryptionKey with
  | some key => decryptData data key
  | none =>
    if cfg.compressed then
      some (match decompress data with
        | .ok bs => if validUtf8 bs then .ok bs else .error .IoError
        | .error e => .error e)
    else some (fromUtf8 data)

/-- `Store::get_store_as_parsed_json` (`lib.rs` lines 298-320): check
existence, read the file, unwrap the bytes and parse them as JSON. -/
def getStoreAsParsedJson (cfg : Config) (fs : FS) :
    Option (Except Error Value) :=
  match fs.file with
  | none => some (.error .NotFound)
  | some data =>
    match unwrapData cfg data with
    | none => none
    | some (.error e) => some (.error e)
    | some (.ok s) => some (parseJson s)

/-- The serialized empty document: `init_store` writes the literal
`"{}"`, the `serde_json` serialization of the empty object, which the
modelled codec renders as `ser (.obj [])`. -/
def emptyDoc : List Nat := ser (.obj [])

/-- `Store::init_store` (`lib.rs` lines 236-246): create the directory
if missing, create the file if missing, then write the empty document
(wrapped according to the configuration, using `nonce` for the random
nonce when encrypting). -/
def initStore (cfg : Config) (fs : FS) (nonce : List Nat) : Except Error FS :=
  let fs1 := if !storeDirExists fs then { fs with dir := true } else fs
  let fs2 := if !storeExists fs1 then { fs1 with file := some [] } else fs1
  writeStore cfg fs2 emptyDoc nonce

/-- `Store::get` (`lib.rs` lines 97-103): `NotFound` when the store file
does not exist; otherwise load, unwrap, parse and delegate to the
resolver's get (spec §4.1: a missing path is not an error). -/
def storeGet (cfg : Config) (fs : FS) (path : List Nat) :
    Option (Except Error (Option Value)) :=
  if !storeExists fs then some (.error .NotFound)
  else
    match getStoreAsParsedJson cfg fs with
    | none => none
    | some (.error e) => some (.error e)
    | some (.ok doc) => some (.ok (dotGet doc (splitPath path)))

/-- `Store::set` (`lib.rs` lines 150-161): serialize the value (a
`Value` serializes to itself), initialize the store if absent (`n1` is
the nonce for that write), load and parse the document, apply the
resolver's set (propagating its traversal error with the file left
unchanged), re-serialize, wrap (`n2` is the nonce) and write.  The
returned pair carries the operation's result and the filesystem state
after the call. -/
def storeSet (cfg : Config) (fs : FS) (path : List Nat) (v : Value)
    (n1 n2 : List Nat) : Option (Except Error Unit × FS) :=
  match (if !storeExists fs then initStore cfg fs n1 else .ok fs) with
  | .error e => some (.error e, fs)
  | .ok fs1 =>
    match getStoreAsParsedJson cfg fs1 with
    | none => none
    | some (.error e) => some (.error e, fs1)
    | some (.ok doc) =>
      match dotSet doc (splitPath path) v with
      | .error e => some (.error (.DotPath e), fs1)
      | .ok doc' =>
        match writeStore cfg fs1 (ser doc') n2 with
        | .error e => some (.error e, fs1)
        | .ok fs2 => some (.ok (), fs2)

/-- `Store::set_encryption_key` (`lib.rs` lines 328-341): reject keys
longer than 32 bytes with `InvalidKeyLength` (leaving the configuration
unchanged); otherwise copy the key bytes into a zero-initialized 32-byte
buffer, index by index, and store it. -/
def setEncryptionKey (cfg : Config) (key : List Nat) :
    Except Error Unit × Config :=
  let finalBytes := List.replicate 32 0
  if key.length > 32 then (.error .InvalidKeyLength, cfg)
  else
    let fb := key.enum.foldl (fun acc p => acc.set p.1 p.2) finalBytes
    (.ok (), { cfg with encryptionKey := some fb })

/-! ### `lib.rs`: storage-path construction

Paths are modelled as lists of components (byte strings); the injected
root directory is such a list. -/

/-- The index of the last dot (byte 46) in a file name, if any. -/
def lastDotIdx : List Nat → Option Nat
  | [] => none
  | b :: r =>
    match lastDotIdx r with
    | some i => some (i + 1)
    | none => if b = 46 then some 0 else none

/-- `Path::file_stem` on a single component: the whole name when it has
no dot or only a leading dot, otherwise the portion before the final
dot. -/
def fileStem (name : List Nat) : List Nat :=
  match lastDotIdx name with
  | none => name
  | some 0 => name
  | some i => name.take i

/-- `PathBuf::set_extension` on a single-component file name: replace
(or attach) the extension after the stem; an empty extension just
removes the old one. -/
def setExtension (name ext : List Nat) : List Nat :=
  if ext = [] then fileStem name else fileStem name ++ 46 :: ext

/-- `Store::get_store_dir_path` (`lib.rs` lines 197-204): the root plus
one subdirectory named `{project_name}-{project_suffix}` (45 is the
hyphen). -/
def getStoreDirPath (cfg : Config) (root : List (List Nat)) :
    List (List Nat) :=
  root ++ [cfg.projectName ++ 45 :: cfg.projectSuffix]

/-- `Store::get_store_path` (`lib.rs` lines 207-214): the store
directory plus a file named by pushing `project_name` and setting the
configured extension on it.  Note the source uses `project_name`, not
`config_name`, for the file's base name. -/
def getStorePath (cfg : Config) (root : List (List Nat)) :
    List (List Nat) :=
  getStoreDirPath cfg root ++ [setExtension cfg.projectName cfg.fileExtension]

/-! ## Lemmas about the JSON codec -/

theorem serNat_length (n : Nat) : (serNat n).length = n + 1 := by
  simp [serNat]

theorem parseNat_serNat (n : Nat) (r : List Nat) :
    parseNat (serNat n ++ r) = some (n, r) := by
  induction n with
  | zero => simp [serNat, parseNat]
  | succ n ih =>
    have : serNat (n + 1) ++ r = 49 :: (serNat n ++ r) := by
      simp [serNat, List.replicate_succ]
    rw [this, parseNat]
    simp [ih]

theorem parseInt_serInt (i : Int) (r : List Nat) :
    parseInt (serInt i ++ r) = some (i, r) := by
  by_cases hi : i < 0
  · have : serInt i ++ r = 45 :: (serNat i.natAbs ++ r) := by
      simp [serInt, hi]
    rw [this, parseInt]
    simp only [parseNat_serNat]
    norm_num
    rw [abs_of_neg hi]
    ring
  · have : serInt i ++ r = 43 :: (serNat i.natAbs ++ r) := by
      simp [serInt, hi]
    rw [this, parseInt]
    simp only [parseNat_serNat]
    norm_num
    exact not_lt.mp hi

theorem parseNats_flat (s : List Nat) (r : List Nat) :
    parseNats s.length ((s.map serNat).flatten ++ r) = some (s, r) := by
  induction s generalizing r with
  | nil => simp [parseNats]
  | cons b t ih =>
    have : ((b :: t).map serNat).flatten ++ r
        = serNat b ++ ((t.map serNat).flatten ++ r) := by
      simp
    rw [List.length_cons, this, parseNats, parseNat_serNat]
    simp [ih]

theorem parseBytes_serBytes (s : List Nat) (r : List Nat) :
    parseBytes (serBytes s ++ r) = some (s, r) := by
  have : serBytes s ++ r = serNat s.length ++ ((s.map serNat).flatten ++ r) := by
    simp [serBytes]
  rw [parseBytes, this, parseNat_serNat]
  simp [parseNats_flat]

theorem ser_length_pos (v : Value) : 1 ≤ (ser v).length := by
  cases v with
  | bool b => cases b <;> simp [ser]
  | _ => simp [ser]

theorem serBytes_length_pos (s : List Nat) : 1 ≤ (serBytes s).length := by
  simp [serBytes, serNat]
  omega

theorem serList_length_cons (v : Value) (t : List Value) :
    (serList (v :: t)).length = (ser v).length + (serList t).length := by
  simp [serList]

theorem serKVs_length_cons (k : List Nat) (v : Value)
    (t : List (List Nat × Value)) :
    (serKVs ((k, v) :: t)).length
      = (serBytes k).length + (ser v).length + (serKVs t).length := by
  simp [serKVs]
  omega

/-- Joint round-trip statement for the fueled parser, proved by strong
induction on the fuel. -/
theorem parse_ser_aux (f : Nat) :
    (∀ v rest, (ser v).length ≤ f →
      parseVal f (ser v ++ rest) = some (v, rest)) ∧
    (∀ l rest, (serList l).length + 1 ≤ f →
      parseMany f l.length (serList l ++ rest) = some (l, rest)) ∧
    (∀ m rest, (serKVs m).length + 1 ≤ f →
      parseKVs f m.length (serKVs m ++ rest) = some (m, rest)) := by
  induction f using Nat.strong_induction_on with
  | _ f ih =>
    refine ⟨?_, ?_, ?_⟩
    · intro v rest h
      match f with
      | 0 => exact absurd h (by have := ser_length_pos v; omega)
      | f' + 1 =>
        cases v with
        | null => simp [ser, parseVal]
        | bool b => cases b <;> simp [ser, parseVal]
        | num i =>
          have : ser (.num i) ++ rest = 105 :: (serInt i ++ rest) := by
            simp [ser]
          rw [this, parseVal]
          simp [parseInt_serInt]
        | str s =>
          have : ser (.str s) ++ rest = 115 :: (serBytes s ++ rest) := by
            simp [ser]
          rw [this, parseVal]
          simp [parseBytes_serBytes]
        | arr l =>
          have hsplit : ser (.arr l) ++ rest
              = 97 :: (serNat l.length ++ (serList l ++ rest)) := by
            simp [ser]
          rw [hsplit, parseVal]
          have hlen : (ser (.arr l)).length
              = 1 + (l.length + 1) + (serList l).length := by
            simp [ser, serNat]
            omega
          have hf : (serList l).length + 1 ≤ f' := by omega
          simp [parseNat_serNat, (ih f' (by omega)).2.1 l rest hf]
        | obj m =>
          have hsplit : ser (.obj m) ++ rest
              = 111 :: (serNat m.length ++ (serKVs m ++ rest)) := by
            simp [ser]
          rw [hsplit, parseVal]
          have hlen : (ser (.obj m)).length
              = 1 + (m.length + 1) + (serKVs m).length := by
            simp [ser, serNat]
            omega
          have hf : (serKVs m).length + 1 ≤ f' := by omega
          simp [parseNat_serNat, (ih f' (by omega)).2.2 m rest hf]
    · intro l rest h
      match l with
      | [] => simp [serList, parseMany]
      | v :: t =>
        have hvpos := ser_length_pos v
        have hlen := serList_length_cons v t
        match f with
        | 0 => omega
        | f' + 1 =>
          have hsplit : serList (v :: t) ++ rest
              = ser v ++ (serList t ++ rest) := by
            simp [serList]
          rw [List.length_cons, hsplit, parseMany]
          have h1 : (ser v).length ≤ f' := by omega
          have h2 : (serList t).length + 1 ≤ f' := by omega
          simp [(ih f' (by omega)).1 v (serList t ++ rest) h1,
            (ih f' (by omega)).2.1 t rest h2]
    · intro m rest h
      match m with
      | [] => simp [serKVs, parseKVs]
      | (k, v) :: t =>
        have hvpos := ser_length_pos v
        have hkpos := serBytes_length_pos k
        have hlen := serKVs_length_cons k v t
        match f with
        | 0 => omega
        | f' + 1 =>
          have hsplit : serKVs ((k, v) :: t) ++ rest
              = serBytes k ++ (ser v ++ (serKVs t ++ rest)) := by
            simp [serKVs]
          rw [List.length_cons, hsplit, parseKVs, parseBytes_serBytes]
          have h1 : (ser v).length ≤ f' := by omega
          have h2 : (serKVs t).length + 1 ≤ f' := by omega
          simp [(ih f' (by omega)).1 v (serKVs t ++ rest) h1,
            (ih f' (by omega)).2.2 t rest h2]

/-- The modelled codec is a parse/serialize round trip, the contract of
the `serde_json` capability. -/
theorem parseJson_ser (v : Value) : parseJson (ser v) = .ok v := by
  have h := (parse_ser_aux ((ser v).length + 1)).1 v [] (by omega)
  rw [parseJson]
  simp only [List.append_nil] at h
  rw [h]

/-! ## Serializer output is ASCII, hence valid UTF-8 -/

theorem serNat_ascii (n : Nat) : ∀ b ∈ serNat n, b < 128 := by
  intro b hb
  simp [serNat, List.mem_replicate] at hb
  rcases hb with ⟨_, h⟩ | h <;> omega

theorem serInt_ascii (i : Int) : ∀ b ∈ serInt i, b < 128 := by
  intro b hb
  simp [serInt] at hb
  rcases hb with h | h
  · split at h <;> simp at h <;> omega
  · exact serNat_ascii _ b h

theorem serBytes_ascii (s : List Nat) : ∀ b ∈ serBytes s, b < 128 := by
  intro b hb
  rw [serBytes] at hb
  rcases List.mem_append.mp hb with h | h
  · exact serNat_ascii _ b h
  · rcases List.mem_flatten.mp h with ⟨l, hl, hbl⟩
    rcases List.mem_map.mp hl with ⟨a, _, rfl⟩
    exact serNat_ascii a b hbl

mutual

theorem ser_ascii : ∀ (v : Value), ∀ b ∈ ser v, b < 128
  | .null, b, hb => by simp [ser] at hb; omega
  | .bool true, b, hb => by simp [ser] at hb; omega
  | .bool false, b, hb => by simp [ser] at hb; omega
  | .num i, b, hb => by
    simp [ser] at hb
    rcases hb with h | h
    · omega
    · exact serInt_ascii i b h
  | .str s, b, hb => by
    simp [ser] at hb
    rcases hb with h | h
    · omega
    · exact serBytes_ascii s b h
  | .arr l, b, hb => by
    simp [ser] at hb
    rcases hb with h | h | h
    · omega
    · exact serNat_ascii _ b h
    · exact serList_ascii l b h
  | .obj m, b, hb => by
    simp [ser] at hb
    rcases hb with h | h | h
    · omega
    · exact serNat_ascii _ b h
    · exact serKVs_ascii m b h

theorem serList_ascii : ∀ (l : List Value), ∀ b ∈ serList l, b < 128
  | [], b, hb => by simp [serList] at hb
  | v :: t, b, hb => by
    simp [serList] at hb
    rcases hb with h | h
    · exact ser_ascii v b h
    · exact serList_ascii t b h

theorem serKVs_ascii : ∀ (m : List (List Nat × Value)), ∀ b ∈ serKVs m, b < 128
  | [], b, hb => by simp [serKVs] at hb
  | (k, v) :: t, b, hb => by
    simp [serKVs] at hb
    rcases hb with h | h | h
    · exact serBytes_ascii k b h
    · exact ser_ascii v b h
    · exact serKVs_ascii t b h

end

theorem validUtf8_of_ascii : ∀ (l : List Nat), (∀ b ∈ l, b < 128) →
    validUtf8 l = true
  | [], _ => rfl
  | c :: rest, h => by
    have hc : c ≤ 127 := by
      have := h c (List.mem_cons_self c rest)
      omega
    rw [validUtf8, if_pos hc]
    exact validUtf8_of_ascii rest (fun b hb => h b (List.mem_cons_of_mem c hb))

theorem validUtf8_ser (v : Value) : validUtf8 (ser v) = true :=
  validUtf8_of_ascii (ser v) (ser_ascii v)

/-! ## Lemmas about the AEAD model and the transform pipeline -/

/-- Opening a sealed message under the same key and nonce recovers the
plaintext: the AEAD capability's functional contract. -/
theorem openAEAD_sealAEAD (key nonce pt : List Nat) :
    openAEAD key nonce (sealAEAD key nonce pt) = some pt := by
  have hlen : (sealAEAD key nonce pt).length = pt.length + 16 := by
    simp [sealAEAD, mkTag]
  rw [openAEAD, if_neg (by omega)]
  have htake : (sealAEAD key nonce pt).take ((sealAEAD key nonce pt).length - 16)
      = pt := by
    rw [hlen, sealAEAD]
    simp [mkTag]
  have hdrop : (sealAEAD key nonce pt).drop ((sealAEAD key nonce pt).length - 16)
      = mkTag key nonce pt := by
    rw [hlen, sealAEAD]
    simp [mkTag]
  simp [htake, hdrop]

/-- `unwrap` after `wrap`: for any configuration, the transform pipeline
of `write_store` / `get_store_as_parsed_json` is symmetric on valid
UTF-8 document bytes (the nonce used by the encrypted write being 12
bytes long, as `rand::random::<[u8; 12]>()` guarantees). -/
theorem unwrapData_wrapData (cfg : Config) (data nonce w : List Nat)
    (hd : validUtf8 data = true)
    (hn : ∀ k, cfg.encryptionKey = some k → nonce.length = 12)
    (hw : wrapData cfg data nonce = .ok w) :
    unwrapData cfg w = some (.ok data) := by
  rw [wrapData] at hw
  cases hkey : cfg.encryptionKey with
  | some key =>
    rw [hkey] at hw
    simp only [encryptData, Except.ok.injEq] at hw
    subst hw
    have h12 : nonce.length = 12 := hn key hkey
    have hlen : ¬ (nonce ++ sealAEAD key nonce data).length < 12 := by
      rw [List.length_append, h12]
      omega
    have htake : (nonce ++ sealAEAD key nonce data).take 12 = nonce := by
      rw [← h12]
      simp
    have hdrop : (nonce ++ sealAEAD key nonce data).drop 12
        = sealAEAD key nonce data := by
      rw [← h12]
      simp
    simp only [unwrapData, hkey, decryptData, if_neg hlen, htake, hdrop,
      openAEAD_sealAEAD, hd]
    simp
  | none =>
    rw [hkey] at hw
    cases hc : cfg.compressed with
    | true =>
      rw [hc] at hw
      simp only [if_true] at hw
      cases hw
      simp only [unwrapData, hkey, hc, if_true]
      simp [decompress, compress, hd]
    | false =>
      rw [hc] at hw
      simp only [if_false] at hw
      cases hw
      simp only [unwrapData, hkey, hc, if_false]
      simp [fromUtf8, hd]

/-! ## Lemmas about the dot-path resolver -/

theorem objGet_objSet_self (m : List (List Nat × Value)) (k : List Nat)
    (v : Value) : objGet (objSet m k v) k = some v := by
  induction m with
  | nil => simp [objSet, objGet]
  | cons p t ih =>
    obtain ⟨k0, w⟩ := p
    by_cases hk : k0 = k
    · simp [objSet, objGet, hk]
    · simp [objSet, objGet, hk, ih]

theorem getElem?_set_self_of_lt {α : Type _} (l : List α) (i : Nat) (a : α)
    (h : i < l.length) : (l.set i a)[i]? = some a := by
  induction l generalizing i with
  | nil => simp at h
  | cons x t ih =>
    cases i with
    | zero => simp
    | succ j =>
      simp only [List.set_cons_succ, List.getElem?_cons_succ]
      exact ih j (by simpa using h)

theorem getElem?_set_ne {α : Type _} (l : List α) (i j : Nat) (a : α)
    (h : i ≠ j) : (l.set i a)[j]? = l[j]? := by
  induction l generalizing i j with
  | nil => simp
  | cons x t ih =>
    cases i with
    | zero =>
      cases j with
      | zero => omega
      | succ j' => simp
    | succ i' =>
      cases j with
      | zero => simp
      | succ j' =>
        simp only [List.set_cons_succ, List.getElem?_cons_succ]
        exact ih i' j' (by omega)

theorem getElem?_concat_self {α : Type _} (l : List α) (a : α) :
    (l ++ [a])[l.length]? = some a := by
  induction l with
  | nil => simp
  | cons x t ih => simp [ih]

theorem getElem?_some_lt {α : Type _} {l : List α} {i : Nat} {a : α}
    (h : l[i]? = some a) : i < l.length := by
  by_contra hc
  rw [List.getElem?_eq_none (by omega)] at h
  cases h

theorem dotGet_nil (v : Value) : dotGet v [] = some v := by
  cases v <;> rfl

/-- Round trip of the spec-modelled resolver: whenever `dot_set`
succeeds, `dot_get` at the same path finds exactly the value that was
set. -/
theorem dotGet_dotSet (segs : List (List Nat)) :
    ∀ (t t' v : Value), dotSet t segs v = .ok t' → dotGet t' segs = some v := by
  induction segs with
  | nil =>
    intro t t' v h
    rw [dotSet] at h
    cases h
    exact dotGet_nil _
  | cons s rest ih =>
    intro t t' v h
    cases t with
    | null => rw [dotSet.eq_def] at h; dsimp only [] at h; cases h
    | bool b => rw [dotSet.eq_def] at h; dsimp only [] at h; cases h
    | num i => rw [dotSet.eq_def] at h; dsimp only [] at h; cases h
    | str s0 => rw [dotSet.eq_def] at h; dsimp only [] at h; cases h
    | obj m =>
      rw [dotSet.eq_def] at h
      dsimp only [] at h
      cases rest with
      | nil =>
        dsimp only [] at h
        cases h
        rw [dotGet, objGet_objSet_self]
        exact dotGet_nil _
      | cons r1 rs =>
        dsimp only [] at h
        cases hg : objGet m s with
        | some c =>
          rw [hg] at h
          dsimp only [] at h
          cases hds : dotSet c (r1 :: rs) v with
          | ok c' =>
            rw [hds] at h
            dsimp only [] at h
            cases h
            rw [dotGet, objGet_objSet_self]
            exact ih c c' v hds
          | error e => rw [hds] at h; dsimp only [] at h; cases h
        | none =>
          rw [hg] at h
          dsimp only [] at h
          cases hds : dotSet (.obj []) (r1 :: rs) v with
          | ok c' =>
            rw [hds] at h
            dsimp only [] at h
            cases h
            rw [dotGet, objGet_objSet_self]
            exact ih _ c' v hds
          | error e => rw [hds] at h; dsimp only [] at h; cases h
    | arr l =>
      rw [dotSet.eq_def] at h
      dsimp only [] at h
      cases hi : parseIndex s with
      | none => rw [hi] at h; dsimp only [] at h; cases h
      | some i =>
        rw [hi] at h
        dsimp only [] at h
        cases rest with
        | nil =>
          dsimp only [] at h
          split at h
          · cases h
            rename_i hlt
            rw [dotGet, hi]
            dsimp only []
            rw [getElem?_set_self_of_lt _ _ _ hlt]
            exact dotGet_nil _
          · split at h
            · cases h
              rename_i hlen
              rw [dotGet, hi]
              dsimp only []
              rw [hlen, getElem?_concat_self]
              exact dotGet_nil _
            · cases h
        | cons r1 rs =>
          dsimp only [] at h
          cases hc : l[i]? with
          | some c =>
            rw [hc] at h
            dsimp only [] at h
            cases hds : dotSet c (r1 :: rs) v with
            | ok c' =>
              rw [hds] at h
              dsimp only [] at h
              cases h
              rw [dotGet, hi]
              dsimp only []
              rw [getElem?_set_self_of_lt _ _ _ (getElem?_some_lt hc)]
              exact ih c c' v hds
            | error e => rw [hds] at h; dsimp only [] at h; cases h
          | none => rw [hc] at h; dsimp only [] at h; cases h

/-- Reading back a file just written by `write_store` parses to the
document that was serialized into it. -/
theorem getStoreAsParsedJson_writeStore (cfg : Config) (fs fs' : FS)
    (doc : Value) (nonce : List Nat)
    (hn : ∀ k, cfg.encryptionKey = some k → nonce.length = 12)
    (hw : writeStore cfg fs (ser doc) nonce = .ok fs') :
    getStoreAsParsedJson cfg fs' = some (.ok doc) := by
  rw [writeStore] at hw
  cases hwrap : wrapData cfg (ser doc) nonce with
  | error e => rw [hwrap] at hw; cases hw
  | ok w =>
    rw [hwrap] at hw
    cases hw
    rw [getStoreAsParsedJson]
    simp only
    rw [unwrapData_wrapData cfg (ser doc) nonce w (validUtf8_ser doc) hn hwrap]
    simp [parseJson_ser]

/-- A successful `write_store` produced some wrapped bytes and stored
them as the file's new content. -/
theorem writeStore_ok {cfg : Config} {fs : FS} {data nonce : List Nat}
    {fs' : FS} (h : writeStore cfg fs data nonce = .ok fs') :
    ∃ bs, wrapData cfg data nonce = .ok bs ∧ fs' = { fs with file := some bs } := by
  rw [writeStore] at h
  cases hw : wrapData cfg data nonce with
  | error e => rw [hw] at h; cases h
  | ok bs =>
    rw [hw] at h
    dsimp only [] at h
    cases h
    exact ⟨bs, rfl, rfl⟩

/-- Decomposition of a successful `Store::set`: some intermediate state
`fs1` (the input state, possibly initialized) was read and parsed to
`doc`, the resolver's set produced `doc'`, and `doc'` was re-serialized,
wrapped and written, yielding the final state. -/
theorem storeSet_ok {cfg : Config} {fs : FS} {p : List Nat} {v : Value}
    {n1 n2 : List Nat} {fs' : FS}
    (h : storeSet cfg fs p v n1 n2 = some (.ok (), fs')) :
    ∃ fs1 doc doc',
      getStoreAsParsedJson cfg fs1 = some (.ok doc) ∧
      dotSet doc (splitPath p) v = .ok doc' ∧
      writeStore cfg fs1 (ser doc') n2 = .ok fs' := by
  rw [storeSet] at h
  cases h0 : (if !storeExists fs then initStore cfg fs n1 else .ok fs) with
  | error e => rw [h0] at h; dsimp only [] at h; simp at h
  | ok fs1 =>
    rw [h0] at h
    dsimp only [] at h
    cases hg : getStoreAsParsedJson cfg fs1 with
    | none => rw [hg] at h; dsimp only [] at h; simp at h
    | some r =>
      cases r with
      | error e => rw [hg] at h; dsimp only [] at h; simp at h
      | ok doc =>
        rw [hg] at h
        dsimp only [] at h
        cases hd : dotSet doc (splitPath p) v with
        | error e => rw [hd] at h; dsimp only [] at h; simp at h
        | ok doc' =>
          rw [hd] at h
          dsimp only [] at h
          cases hw : writeStore cfg fs1 (ser doc') n2 with
          | error e => rw [hw] at h; dsimp only [] at h; simp at h
          | ok fs2 =>
            rw [hw] at h
            dsimp only [] at h
            have hfs : fs2 = fs' := by
              simpa using h
            subst hfs
            exact ⟨fs1, doc, doc', hg, hd, hw⟩

/-! ## The claims -/

/-- C1 (round-trip): on any store configuration and any prior filesystem
state, if `set(p, v)` succeeds (with a 12-byte nonce when encryption is
configured, as the random source guarantees), then `get(p)` on the
resulting state returns `Ok(Some(v))` — the value read deep-equals the
JSON value that was written. -/
theorem set_get_roundTrip (cfg : Config) (fs fs' : FS) (p : List Nat)
    (v : Value) (n1 n2 : List Nat)
    (hn : ∀ k, cfg.encryptionKey = some k → n2.length = 12)
    (hset : storeSet cfg fs p v n1 n2 = some (.ok (), fs')) :
    storeGet cfg fs' p = some (.ok (some v)) := by
  obtain ⟨fs1, doc, doc', hg, hd, hw⟩ := storeSet_ok hset
  have hread := getStoreAsParsedJson_writeStore cfg fs1 fs' doc' n2 hn hw
  obtain ⟨bs, hwrap, hfs⟩ := writeStore_ok hw
  rw [storeGet, if_neg (by rw [hfs]; simp [storeExists])]
  rw [hread]
  dsimp only []
  rw [dotGet_dotSet _ _ _ _ hd]

/-- Witness for C1: on a plain store created from nothing, setting the
path "x.y" to 42 and reading it back yields 42. -/
theorem set_get_roundTrip_witness :
    storeGet ⟨[109, 121], [99, 111, 110, 102, 105, 103], [106, 115, 111, 110],
        [114, 115], none, false⟩
      ⟨true, some (ser (.obj [([120], .obj [([121], .num 42)])]))⟩
      [120, 46, 121]
      = some (.ok (some (.num 42))) :=
  set_get_roundTrip _ ⟨false, none⟩ _ [120, 46, 121] (.num 42) [] []
    (fun _ hk => nomatch hk) (by rfl)

/-- `splitPath` never yields an empty segment list. -/
theorem splitPath_ne_nil (p : List Nat) : splitPath p ≠ [] := by
  cases p with
  | nil => simp [splitPath]
  | cons b r =>
    rw [splitPath]
    split
    · simp
    · cases splitPath r <;> simp

/-- C8 (absent-path neutrality): for a freshly initialized store — any
configuration, any prior filesystem state, the document written being
the empty object — `get` at any dot path whose segments are non-empty
returns `Ok(None)`: a missing path is a successful empty result, never
an error. -/
theorem get_fresh_store_none (cfg : Config) (fs0 fsI : FS)
    (n1 p : List Nat)
    (hn : ∀ k, cfg.encryptionKey = some k → n1.length = 12)
    (hinit : initStore cfg fs0 n1 = .ok fsI)
    (hp : splitPath p ≠ [] ∧ ∀ s ∈ splitPath p, s ≠ []) :
    storeGet cfg fsI p = some (.ok none) := by
  rw [initStore] at hinit
  have hread := getStoreAsParsedJson_writeStore cfg _ fsI (.obj []) n1 hn hinit
  obtain ⟨bs, hwrap, hfs⟩ := writeStore_ok hinit
  rw [storeGet, if_neg (by rw [hfs]; simp [storeExists])]
  rw [hread]
  dsimp only []
  cases hsp : splitPath p with
  | nil => exact absurd hsp hp.1
  | cons s ss =>
    rw [dotGet]
    simp [objGet]

/-- Witness for C8: a freshly initialized plain store returns `Ok(None)`
for the path "a.b". -/
theorem get_fresh_store_none_witness :
    storeGet ⟨[109, 121], [99, 111, 110, 102, 105, 103], [106, 115, 111, 110],
        [114, 115], none, false⟩
      ⟨true, some emptyDoc⟩ [97, 46, 98] = some (.ok none) :=
  get_fresh_store_none _ ⟨false, none⟩ ⟨true, some emptyDoc⟩ [] [97, 46, 98]
    (fun _ hk => nomatch hk) (by rfl)
    (by refine ⟨by decide, ?_⟩; decide)

/-- A successful single-segment `dot_set` with a non-numeric segment can
only have happened on an object document, and it overwrote that
segment's slot. -/
theorem dotSet_single {t t' v : Value} {s : List Nat}
    (hs : parseIndex s = none) (h : dotSet t [s] v = .ok t') :
    ∃ m, t = .obj m ∧ t' = .obj (objSet m s v) := by
  cases t with
  | null => rw [dotSet.eq_def] at h; dsimp only [] at h; cases h
  | bool b => rw [dotSet.eq_def] at h; dsimp only [] at h; cases h
  | num i => rw [dotSet.eq_def] at h; dsimp only [] at h; cases h
  | str s0 => rw [dotSet.eq_def] at h; dsimp only [] at h; cases h
  | arr l =>
    rw [dotSet.eq_def] at h
    dsimp only [] at h
    rw [hs] at h
    dsimp only [] at h
    cases h
  | obj m =>
    rw [dotSet.eq_def] at h
    dsimp only [] at h
    cases h
    exact ⟨m, rfl, rfl⟩

/-- C3 (leaf-collision rejection with atomicity): on any store where
`set("x", "hello")` has succeeded, a subsequent `set("x.y", "world")`
fails with the traversal error (`Error::DotPath BadPathElement`, the
spec's `PathTraversalError` — "unexpected value reached while traversing
path") and leaves the filesystem state — in particular the value stored
at "x" — unchanged: no write occurs on a traversal error. -/
theorem leaf_collision (cfg : Config) (fs fs1 : FS) (n1 n2 n3 n4 : List Nat)
    (hn : ∀ k, cfg.encryptionKey = some k → n2.length = 12)
    (hset : storeSet cfg fs [120] (.str [104, 101, 108, 108, 111]) n1 n2
      = some (.ok (), fs1)) :
    storeSet cfg fs1 [120, 46, 121] (.str [119, 111, 114, 108, 100]) n3 n4
        = some (.error (.DotPath .BadPathElement), fs1) ∧
    storeGet cfg fs1 [120]
        = some (.ok (some (.str [104, 101, 108, 108, 111]))) := by
  obtain ⟨fsA, doc, doc', hg, hd, hw⟩ := storeSet_ok hset
  have hsplit1 : splitPath [120] = [[120]] := rfl
  rw [hsplit1] at hd
  obtain ⟨m, rfl, rfl⟩ := dotSet_single (by rfl) hd
  have hread := getStoreAsParsedJson_writeStore cfg fsA fs1
    (.obj (objSet m [120] (.str [104, 101, 108, 108, 111]))) n2 hn hw
  obtain ⟨bs, hwrap, hfs⟩ := writeStore_ok hw
  have hex : storeExists fs1 = true := by rw [hfs]; simp [storeExists]
  have hds : dotSet (.obj (objSet m [120] (.str [104, 101, 108, 108, 111])))
      [[120], [121]] (.str [119, 111, 114, 108, 100])
      = .error .BadPathElement := by
    rw [dotSet.eq_def]
    dsimp only []
    rw [objGet_objSet_self]
    rfl
  constructor
  · rw [storeSet, if_neg (by simp [hex])]
    dsimp only []
    rw [hread]
    dsimp only []
    have hsplit2 : splitPath [120, 46, 121] = [[120], [121]] := rfl
    rw [hsplit2, hds]
  · rw [storeGet, if_neg (by simp [hex])]
    rw [hread]
    dsimp only []
    rw [hsplit1, dotGet, objGet_objSet_self]
    rfl

/-- Witness for C3: concrete leaf collision on a plain store built from
nothing. -/
theorem leaf_collision_witness :
    storeSet ⟨[109, 121], [99, 111, 110, 102, 105, 103], [106, 115, 111, 110],
        [114, 115], none, false⟩
      ⟨true, some (ser (.obj [([120], .str [104, 101, 108, 108, 111])]))⟩
      [120, 46, 121] (.str [119, 111, 114, 108, 100]) [] []
      = some (.error (.DotPath .BadPathElement),
          (⟨true, some (ser (.obj [([120], .str [104, 101, 108, 108, 111])]))⟩ : FS)) :=
  (leaf_collision
    ⟨[109, 121], [99, 111, 110, 102, 105, 103], [106, 115, 111, 110],
      [114, 115], none, false⟩
    ⟨false, none⟩
    ⟨true, some (ser (.obj [([120], .str [104, 101, 108, 108, 111])]))⟩
    [] [] [] []
    (fun _ hk => nomatch hk) (by rfl)).1

/-- A file name without a dot has no last-dot index. -/
theorem lastDotIdx_eq_none {name : List Nat} (h : 46 ∉ name) :
    lastDotIdx name = none := by
  induction name with
  | nil => rfl
  | cons b r ih =>
    rw [lastDotIdx, ih (fun hm => h (List.mem_cons_of_mem b hm))]
    dsimp only []
    rw [if_neg (fun hb => h (by rw [hb]; exact List.mem_cons_self 46 r))]

/-- `set_extension` on a dotless name with a nonempty extension appends
a dot and the extension. -/
theorem setExtension_no_dot {name ext : List Nat} (hd : 46 ∉ name)
    (he : ext ≠ []) : setExtension name ext = name ++ 46 :: ext := by
  rw [setExtension, if_neg he, fileStem, lastDotIdx_eq_none hd]

/-- Counterexample for C2: for the default-style configuration with
project name "my-app" ([109,121,45,97,112,112]), config name "config"
([99,111,110,102,105,103]), extension "json" ([106,115,111,110]) and
suffix "rs" ([114,115]), the storage file's name component is
"my-app.json", not the `config_name` plus the extension ("config.json"):
the source's `get_store_path` pushes `project_name`, never
`config_name`. -/
theorem storePath_counterexample :
    getStorePath ⟨[109, 121, 45, 97, 112, 112], [99, 111, 110, 102, 105, 103],
        [106, 115, 111, 110], [114, 115], none, false⟩ []
      = [[109, 121, 45, 97, 112, 112, 45, 114, 115],
         [109, 121, 45, 97, 112, 112, 46, 106, 115, 111, 110]] ∧
    [109, 121, 45, 97, 112, 112, 46, 106, 115, 111, 110]
      ≠ [99, 111, 110, 102, 105, 103] ++ 46 :: [106, 115, 111, 110] := by
  exact ⟨rfl, by decide⟩

/-- C2 as amended: the storage file is at
`root/{project_name}-{suffix}/{file_stem(project_name)}.{extension}` —
for a dotless project name and a nonempty extension the file name
component is `{project_name}.{extension}` — and the `config_name` field
plays no part in the location. -/
theorem storePath_spec (cfg : Config) (root : List (List Nat))
    (hdot : 46 ∉ cfg.projectName) (hext : cfg.fileExtension ≠ []) :
    getStorePath cfg root
      = root ++ [cfg.projectName ++ 45 :: cfg.projectSuffix,
                 cfg.projectName ++ 46 :: cfg.fileExtension] ∧
    ∀ cn, getStorePath { cfg with configName := cn } root
      = getStorePath cfg root := by
  constructor
  · rw [getStorePath, getStoreDirPath, setExtension_no_dot hdot hext]
    simp
  · intro cn
    rfl

/-- Witness for the amended C2 at a concrete configuration. -/
theorem storePath_spec_witness :
    getStorePath ⟨[109, 121], [99, 111, 110, 102, 105, 103],
        [106, 115, 111, 110], [114, 115], none, false⟩ [[114]]
      = [[114], [109, 121, 45, 114, 115], [109, 121, 46, 106, 115, 111, 110]] :=
  (storePath_spec _ [[114]] (by decide) (by decide)).1

/-! ## Helpers for the tamper-detection proof -/

theorem set_append_lt {α : Type _} (l1 l2 : List α) (i : Nat) (a : α)
    (h : i < l1.length) : (l1 ++ l2).set i a = l1.set i a ++ l2 := by
  induction l1 generalizing i with
  | nil => simp at h
  | cons x t ih =>
    cases i with
    | zero => simp
    | succ j =>
      simp only [List.cons_append, List.set_cons_succ]
      rw [ih j (by simpa using h)]

theorem set_append_ge {α : Type _} (l1 l2 : List α) (i : Nat) (a : α)
    (h : l1.length ≤ i) :
    (l1 ++ l2).set i a = l1 ++ l2.set (i - l1.length) a := by
  induction l1 generalizing i with
  | nil => simp
  | cons x t ih =>
    cases i with
    | zero => simp at h
    | succ j =>
      simp only [List.cons_append, List.set_cons_succ, List.length_cons]
      rw [ih j (by simpa using h)]
      simp [Nat.succ_sub_succ]

theorem sum_set (l : List Nat) (i : Nat) (c old : Nat)
    (h : l[i]? = some old) : (l.set i c).sum + old = l.sum + c := by
  induction l generalizing i with
  | nil => simp at h
  | cons x t ih =>
    cases i with
    | zero =>
      simp only [List.getElem?_cons_zero, Option.some.injEq] at h
      subst h
      simp [List.sum_cons]
      omega
    | succ j =>
      simp only [List.getElem?_cons_succ] at h
      simp only [List.set_cons_succ, List.sum_cons]
      have := ih j h
      omega

theorem replicate16_inj {x y : Nat}
    (h : List.replicate 16 x = List.replicate 16 y) : x = y := by
  simp [List.replicate_succ] at h
  exact h

theorem getElem?_append_lt {α : Type _} (l1 l2 : List α) (i : Nat)
    (h : i < l1.length) : (l1 ++ l2)[i]? = l1[i]? := by
  rw [List.getElem?_append, if_pos h]

theorem getElem?_append_ge {α : Type _} (l1 l2 : List α) (i : Nat)
    (h : l1.length ≤ i) : (l1 ++ l2)[i]? = l2[i - l1.length]? := by
  rw [List.getElem?_append, if_neg (by omega)]

theorem mem_of_getElem?' {α : Type _} :
    ∀ {l : List α} {i : Nat} {a : α}, l[i]? = some a → a ∈ l
  | [], i, a, h => by simp at h
  | x :: t, 0, a, h => by
    simp only [List.getElem?_cons_zero, Option.some.injEq] at h
    simp [h]
  | x :: t, i + 1, a, h => by
    simp only [List.getElem?_cons_succ] at h
    exact List.mem_cons_of_mem x (mem_of_getElem?' h)

theorem getElem?_replicate_lt {α : Type _} (n i : Nat) (a : α) (h : i < n) :
    (List.replicate n a)[i]? = some a := by
  induction n generalizing i with
  | zero => omega
  | succ m ih =>
    cases i with
    | zero => simp [List.replicate_succ]
    | succ j =>
      rw [List.replicate_succ]
      simpa using ih j (by omega)

/-- The AEAD model fails closed whenever the stored tag differs from the
recomputed one. -/
theorem openAEAD_eq_none (key nonce ct : List Nat) (h16 : 16 ≤ ct.length)
    (hne : ct.drop (ct.length - 16) ≠ mkTag key nonce (ct.take (ct.length - 16))) :
    openAEAD key nonce ct = none := by
  rw [openAEAD, if_neg (by omega)]
  simp only []
  rw [if_neg hne]

/-- Tamper detection: flipping any single byte of an encrypted payload
`nonce ++ sealAEAD key nonce b` makes `unwrap` (the read path of
`get_store_as_parsed_json` with that key configured) fail with
`Error::Decryption` instead of returning corrupted plaintext. -/
theorem unwrap_tamper (cfgE : Config) (k nonce b : List Nat)
    (hEk : cfgE.encryptionKey = some k)
    (hb2 : ∀ x ∈ b, x < 256) (hn : nonce.length = 12)
    (hn2 : ∀ x ∈ nonce, x < 256)
    (i c old : Nat) (hold : (nonce ++ sealAEAD k nonce b)[i]? = some old)
    (hc : c < 256) (hne : c ≠ old) :
    unwrapData cfgE ((nonce ++ sealAEAD k nonce b).set i c)
      = some (.error .Decryption) := by
  have hseal : sealAEAD k nonce b
      = b ++ List.replicate 16 ((k.sum + nonce.sum + b.sum) % 256) := rfl
  have hslen : (sealAEAD k nonce b).length = b.length + 16 := by
    rw [hseal]
    simp
  have htotal : (nonce ++ sealAEAD k nonce b).length = 12 + (b.length + 16) := by
    simp [hslen, hn]
  have hi : i < 12 + (b.length + 16) := by
    have := getElem?_some_lt hold
    omega
  simp only [unwrapData, hEk]
  rw [decryptData.eq_def, if_neg (by simp [htotal])]
  dsimp only []
  rcases Nat.lt_or_ge i 12 with hA | hge
  · -- the flipped byte is inside the nonce
    have hset1 : (nonce ++ sealAEAD k nonce b).set i c
        = nonce.set i c ++ sealAEAD k nonce b :=
      set_append_lt _ _ _ _ (by omega)
    have htk : (nonce.set i c ++ sealAEAD k nonce b).take 12 = nonce.set i c := by
      rw [List.take_left' (by simp [hn])]
    have hdr : (nonce.set i c ++ sealAEAD k nonce b).drop 12 = sealAEAD k nonce b := by
      rw [List.drop_left' (by simp [hn])]
    rw [hset1, htk, hdr]
    have hold' : nonce[i]? = some old := by
      rw [getElem?_append_lt _ _ _ (by omega)] at hold
      exact hold
    have hold256 : old < 256 := hn2 old (mem_of_getElem?' hold')
    have hsum := sum_set nonce i c old hold'
    have hopen : openAEAD k (nonce.set i c) (sealAEAD k nonce b) = none := by
      apply openAEAD_eq_none _ _ _ (by omega)
      rw [hslen, hseal]
      rw [show b.length + 16 - 16 = b.length from by omega]
      rw [List.drop_left' rfl, List.take_left' rfl]
      intro heq
      have := replicate16_inj heq
      omega
    rw [hopen]
  · rcases Nat.lt_or_ge i (12 + b.length) with hB | hC
    · -- the flipped byte is inside the ciphertext body
      have hset1 : (nonce ++ sealAEAD k nonce b).set i c
          = nonce ++ (sealAEAD k nonce b).set (i - 12) c := by
        rw [set_append_ge _ _ _ _ (by omega), hn]
      have hset2 : (sealAEAD k nonce b).set (i - 12) c
          = b.set (i - 12) c
            ++ List.replicate 16 ((k.sum + nonce.sum + b.sum) % 256) := by
        rw [hseal, set_append_lt _ _ _ _ (by omega)]
      have htk : (nonce ++ (sealAEAD k nonce b).set (i - 12) c).take 12
          = nonce := List.take_left' hn
      have hdr : (nonce ++ (sealAEAD k nonce b).set (i - 12) c).drop 12
          = (sealAEAD k nonce b).set (i - 12) c := List.drop_left' hn
      rw [hset1, htk, hdr]
      have hold' : b[i - 12]? = some old := by
        rw [getElem?_append_ge _ _ _ (by omega), hn, hseal,
          getElem?_append_lt _ _ _ (by omega)] at hold
        exact hold
      have hold256 : old < 256 := hb2 old (mem_of_getElem?' hold')
      have hsum := sum_set b (i - 12) c old hold'
      have hopen : openAEAD k nonce ((sealAEAD k nonce b).set (i - 12) c)
          = none := by
        apply openAEAD_eq_none _ _ _ (by simp [hslen])
        rw [hset2]
        have hlen2 : (b.set (i - 12) c
            ++ List.replicate 16 ((k.sum + nonce.sum + b.sum) % 256)).length
            = b.length + 16 := by simp
        rw [hlen2, show b.length + 16 - 16 = b.length from by omega]
        rw [List.drop_left' (by simp), List.take_left' (by simp)]
        intro heq
        have := replicate16_inj heq
        omega
      rw [hopen]
    · -- the flipped byte is inside the 16-byte tag
      have hset1 : (nonce ++ sealAEAD k nonce b).set i c
          = nonce ++ (sealAEAD k nonce b).set (i - 12) c := by
        rw [set_append_ge _ _ _ _ (by omega), hn]
      have hset2 : (sealAEAD k nonce b).set (i - 12) c
          = b ++ (List.replicate 16 ((k.sum + nonce.sum + b.sum) % 256)).set
              (i - 12 - b.length) c := by
        rw [hseal, set_append_ge _ _ _ _ (by omega)]
      have htk : (nonce ++ (sealAEAD k nonce b).set (i - 12) c).take 12
          = nonce := List.take_left' hn
      have hdr : (nonce ++ (sealAEAD k nonce b).set (i - 12) c).drop 12
          = (sealAEAD k nonce b).set (i - 12) c := List.drop_left' hn
      rw [hset1, htk, hdr]
      have hold' : old = (k.sum + nonce.sum + b.sum) % 256 := by
        rw [getElem?_append_ge _ _ _ (by omega), hn, hseal,
          getElem?_append_ge _ _ _ (by omega),
          getElem?_replicate_lt _ _ _ (by omega)] at hold
        exact (Option.some.injEq _ _).mp hold.symm
      have hopen : openAEAD k nonce ((sealAEAD k nonce b).set (i - 12) c)
          = none := by
        apply openAEAD_eq_none _ _ _ (by simp [hslen])
        rw [hset2]
        have hlen2 : (b ++ (List.replicate 16
            ((k.sum + nonce.sum + b.sum) % 256)).set (i - 12 - b.length) c).length
            = b.length + 16 := by simp
        rw [hlen2, show b.length + 16 - 16 = b.length from by omega]
        rw [List.drop_left' rfl, List.take_left' rfl]
        intro heq
        have hj : i - 12 - b.length < 16 := by omega
        have hcc : ((List.replicate 16 ((k.sum + nonce.sum + b.sum) % 256)).set
            (i - 12 - b.length) c)[i - 12 - b.length]? = some c :=
          getElem?_set_self_of_lt _ _ _ (by simp [hj])
        rw [heq, mkTag, getElem?_replicate_lt _ _ _ hj] at hcc
        have : c = (k.sum + nonce.sum + b.sum) % 256 :=
          ((Option.some.injEq _ _).mp hcc).symm
        omega
      rw [hopen]

/-- C4 (transform symmetry): for any plaintext document bytes `b` (a
UTF-8 string) and each of the three configurations — no transform,
compression-only, encryption-only — unwrapping the wrapped bytes
recovers `b` exactly; and flipping any single byte of an encrypted
payload makes `unwrap` fail with `Error::Decryption` rather than return
corrupted plaintext. -/
theorem transform_symmetry (b k nonce : List Nat) (cfg0 cfgC cfgE : Config)
    (h0k : cfg0.encryptionKey = none) (h0c : cfg0.compressed = false)
    (hCk : cfgC.encryptionKey = none) (hCc : cfgC.compressed = true)
    (hEk : cfgE.encryptionKey = some k)
    (hb : validUtf8 b = true) (hb2 : ∀ x ∈ b, x < 256)
    (hn : nonce.length = 12) (hn2 : ∀ x ∈ nonce, x < 256) :
    (wrapData cfg0 b nonce = .ok b ∧ unwrapData cfg0 b = some (.ok b)) ∧
    (wrapData cfgC b nonce = .ok (compress b) ∧
      unwrapData cfgC (compress b) = some (.ok b)) ∧
    (wrapData cfgE b nonce = .ok (nonce ++ sealAEAD k nonce b) ∧
      unwrapData cfgE (nonce ++ sealAEAD k nonce b) = some (.ok b)) ∧
    ∀ i c old, (nonce ++ sealAEAD k nonce b)[i]? = some old → c < 256 →
      c ≠ old →
      unwrapData cfgE ((nonce ++ sealAEAD k nonce b).set i c)
        = some (.error .Decryption) := by
  refine ⟨⟨?_, ?_⟩, ⟨?_, ?_⟩, ⟨?_, ?_⟩, ?_⟩
  · rw [wrapData, h0k]
    simp [h0c]
  · simp [unwrapData, h0k, h0c, fromUtf8, hb]
  · rw [wrapData, hCk]
    simp [hCc]
  · simp [unwrapData, hCk, hCc, decompress, compress, hb]
  · rw [wrapData, hEk]
    rfl
  · exact unwrapData_wrapData cfgE b nonce _ hb
      (fun k' hk' => hn) (by rw [wrapData, hEk]; rfl)
  · intro i c old hold hc hne
    exact unwrap_tamper cfgE k nonce b hEk hb2 hn hn2 i c old hold hc hne

/-- Witness for C4: a concrete one-byte flip in the nonce of an
encrypted payload is rejected with `Error::Decryption`. -/
theorem transform_symmetry_witness :
    unwrapData ⟨[109], [99], [106], [114], some (List.replicate 32 0), false⟩
      ((List.replicate 12 0
        ++ sealAEAD (List.replicate 32 0) (List.replicate 12 0) [123, 125]).set 0 5)
      = some (.error .Decryption) :=
  (transform_symmetry [123, 125] (List.replicate 32 0) (List.replicate 12 0)
    ⟨[109], [99], [106], [114], none, false⟩
    ⟨[109], [99], [106], [114], none, true⟩
    ⟨[109], [99], [106], [114], some (List.replicate 32 0), false⟩
    rfl rfl rfl rfl rfl rfl (by decide) rfl (by decide)).2.2.2
    0 5 0 (by decide) (by decide) (by decide)

/-- C5 (encryption precedence over compression): with both an encryption
key and the compression flag set, the written bytes are exactly the
encryption-only output — compression is never applied — and unwrapping
with the same key succeeds regardless of the compression flag's value at
read time. -/
theorem encryption_precedence (cfg : Config) (k b nonce : List Nat)
    (hk : cfg.encryptionKey = some k) (hc : cfg.compressed = true)
    (hb : validUtf8 b = true) (hn : nonce.length = 12) :
    wrapData cfg b nonce = encryptData b k nonce ∧
    wrapData cfg b nonce = wrapData { cfg with compressed := false } b nonce ∧
    ∀ (c' : Bool) (w : List Nat), wrapData cfg b nonce = .ok w →
      unwrapData { cfg with compressed := c' } w = some (.ok b) := by
  have hk' : ∀ c' : Bool, ({ cfg with compressed := c' } : Config).encryptionKey
      = some k := fun _ => hk
  have h1 : wrapData cfg b nonce = encryptData b k nonce := by
    rw [wrapData, hk]
  refine ⟨h1, ?_, ?_⟩
  · rw [h1, wrapData, hk' false]
  · intro c' w hw
    refine unwrapData_wrapData _ b nonce w hb (fun k0 hk0 => hn) ?_
    rw [wrapData, hk' c']
    dsimp only []
    rw [← h1]
    exact hw

/-- Witness for C5: a store with key and compression flag both set
writes encryption-only bytes that read back under `compressed = false`. -/
theorem encryption_precedence_witness :
    unwrapData ⟨[109], [99], [106], [114], some (List.replicate 32 0), false⟩
      (List.replicate 12 0
        ++ sealAEAD (List.replicate 32 0) (List.replicate 12 0) [123, 125])
      = some (.ok [123, 125]) :=
  (encryption_precedence
    ⟨[109], [99], [106], [114], some (List.replicate 32 0), true⟩
    (List.replicate 32 0) [123, 125] (List.replicate 12 0)
    rfl rfl rfl rfl).2.2 false _ rfl

/-- C9 (encrypted output format): the wrapped output is exactly the
12-byte nonce concatenated with the AEAD ciphertext-plus-tag sealed
under (key, nonce); in particular the first 12 bytes of the stored file
are the nonce used. -/
theorem encrypted_output_format (b k nonce : List Nat) (cfg : Config)
    (fs : FS) (hcfg : cfg.encryptionKey = some k) (hn : nonce.length = 12) :
    encryptData b k nonce = .ok (nonce ++ sealAEAD k nonce b) ∧
    (∀ fs', writeStore cfg fs b nonce = .ok fs' →
      fs'.file = some (nonce ++ sealAEAD k nonce b)) ∧
    (nonce ++ sealAEAD k nonce b).take 12 = nonce := by
  refine ⟨rfl, ?_, List.take_left' hn⟩
  intro fs' hw
  obtain ⟨bs, hwrap, rfl⟩ := writeStore_ok hw
  rw [wrapData, hcfg] at hwrap
  cases hwrap
  rfl

/-- Witness for C9 on a concrete plaintext, key and nonce. -/
theorem encrypted_output_format_witness :
    encryptData [123, 125] (List.replicate 32 0) (List.replicate 12 0)
      = .ok (List.replicate 12 0
          ++ sealAEAD (List.replicate 32 0) (List.replicate 12 0) [123, 125]) :=
  (encrypted_output_format [123, 125] (List.replicate 32 0)
    (List.replicate 12 0)
    ⟨[109], [99], [106], [114], some (List.replicate 32 0), false⟩
    ⟨false, none⟩ rfl rfl).1

/-- Shifting an index-value fold one position to the right over a cons
cell leaves the head untouched. -/
theorem foldl_set_enumFrom_cons (l : List Nat) :
    ∀ (k b : Nat) (acc : List Nat),
      (List.enumFrom (k + 1) l).foldl (fun a p => a.set p.1 p.2) (b :: acc)
        = b :: (List.enumFrom k l).foldl (fun a p => a.set p.1 p.2) acc := by
  induction l with
  | nil => intro k b acc; rfl
  | cons x t ih =>
    intro k b acc
    rw [List.enumFrom, List.foldl, List.enumFrom, List.foldl]
    dsimp only []
    rw [List.set_cons_succ]
    exact ih (k + 1) b (acc.set k x)

/-- The byte-by-byte copy loop of `set_encryption_key` fills the
zero-initialized buffer with the key bytes followed by the remaining
zeros. -/
theorem foldl_set_enum_pad (key : List Nat) :
    ∀ (n : Nat), key.length ≤ n →
      key.enum.foldl (fun a p => a.set p.1 p.2) (List.replicate n 0)
        = key ++ List.replicate (n - key.length) 0 := by
  induction key with
  | nil => intro n h; simp [List.enum]
  | cons x t ih =>
    intro n h
    cases n with
    | zero => simp at h
    | succ m =>
      rw [show (x :: t).enum = (0, x) :: List.enumFrom 1 t from rfl]
      rw [List.foldl]
      dsimp only []
      rw [List.replicate_succ, List.set_cons_zero]
      rw [foldl_set_enumFrom_cons t 0 x (List.replicate m 0)]
      rw [show List.enumFrom 0 t = t.enum from rfl]
      rw [ih m (by simpa using h)]
      simp [List.replicate, Nat.succ_sub_succ]

/-- C6 (key handling): a key string of byte length at most 32 is
accepted and stored right-padded with zero bytes to exactly 32 bytes; a
longer key fails with `InvalidKeyLength`, leaving the configuration —
in particular any previously configured key — unchanged. -/
theorem set_encryption_key_spec (cfg : Config) (key : List Nat) :
    (key.length ≤ 32 →
      setEncryptionKey cfg key
        = (.ok (),
           { cfg with
              encryptionKey := some (key ++ List.replicate (32 - key.length) 0) })) ∧
    (32 < key.length →
      setEncryptionKey cfg key = (.error .InvalidKeyLength, cfg)) := by
  constructor
  · intro h
    rw [setEncryptionKey]
    dsimp only []
    rw [if_neg (by omega)]
    rw [foldl_set_enum_pad key 32 h]
  · intro h
    rw [setEncryptionKey]
    dsimp only []
    rw [if_pos h]

/-- Witness for C6: a 3-byte key is padded to 32 bytes; a 33-byte key is
rejected with the configuration unchanged. -/
theorem set_encryption_key_witness :
    setEncryptionKey ⟨[109], [99], [106], [114], none, false⟩ [1, 2, 3]
      = (.ok (), ⟨[109], [99], [106], [114],
          some ([1, 2, 3] ++ List.replicate 29 0), false⟩) ∧
    setEncryptionKey ⟨[109], [99], [106], [114], none, false⟩
        (List.replicate 33 7)
      = (.error .InvalidKeyLength, ⟨[109], [99], [106], [114], none, false⟩) :=
  ⟨(set_encryption_key_spec ⟨[109], [99], [106], [114], none, false⟩
      [1, 2, 3]).1 (by decide),
   (set_encryption_key_spec ⟨[109], [99], [106], [114], none, false⟩
      (List.replicate 33 7)).2 (by decide)⟩

/-- Counterexample for C7: an encrypted payload whose AEAD
authentication succeeds with the non-UTF-8 plaintext `[255]` is rejected
by `decrypt_data` with `Error::Decryption`, not with the UTF-8 error
variant (`Error::FromUTF8Error`) the claim names: the source maps the
`String::from_utf8` failure to `Error::Decryption`. -/
theorem decrypt_invalid_utf8_counterexample :
    openAEAD (List.replicate 32 0) (List.replicate 12 0)
        ([255] ++ List.replicate 16 255) = some [255] ∧
    validUtf8 [255] = false ∧
    decryptData (List.replicate 12 0 ++ ([255] ++ List.replicate 16 255))
        (List.replicate 32 0) = some (.error .Decryption) ∧
    decryptData (List.replicate 12 0 ++ ([255] ++ List.replicate 16 255))
        (List.replicate 32 0) ≠ some (.error .FromUTF8Error) := by
  refine ⟨rfl, rfl, rfl, ?_⟩
  intro h
  rw [show decryptData (List.replicate 12 0 ++ ([255] ++ List.replicate 16 255))
        (List.replicate 32 0) = some (.error .Decryption) from rfl] at h
  simp at h

/-- C7 as amended: when AEAD authentication succeeds but the recovered
plaintext is not valid UTF-8, `decrypt_data` fails with
`Error::Decryption` — the same variant as an authentication failure —
not with a distinct UTF-8/encoding error. -/
theorem decrypt_invalid_utf8 (data k pt : List Nat)
    (h12 : ¬ data.length < 12)
    (hopen : openAEAD k (data.take 12) (data.drop 12) = some pt)
    (hutf : validUtf8 pt = false) :
    decryptData data k = some (.error .Decryption) := by
  rw [decryptData.eq_def, if_neg h12]
  dsimp only []
  rw [hopen]
  dsimp only []
  rw [hutf]
  rfl

/-- Witness for the amended C7 at the counterexample's input. -/
theorem decrypt_invalid_utf8_witness :
    decryptData (List.replicate 12 0 ++ ([255] ++ List.replicate 16 255))
        (List.replicate 32 0) = some (.error .Decryption) :=
  decrypt_invalid_utf8 _ _ [255] (by decide) rfl rfl

/-- C10 (short-input panic): with an encryption key configured,
`decrypt_data` on an input shorter than 12 bytes panics at
`split_at(12)` (modelled as `none`) instead of returning a typed error —
and so does the read path `get_store_as_parsed_json` on such a file;
a `DecryptionError` result can only arise for inputs of at least 12
bytes, for which `decrypt_data` always returns normally. -/
theorem decrypt_short_panics (data k : List Nat) (cfg : Config) (fs : FS)
    (hcfg : cfg.encryptionKey = some k) (hfile : fs.file = some data) :
    (data.length < 12 → decryptData data k = none ∧
      getStoreAsParsedJson cfg fs = none) ∧
    (12 ≤ data.length → (decryptData data k).isSome) := by
  constructor
  · intro h
    have hd : decryptData data k = none := by
      rw [decryptData.eq_def, if_pos h]
    refine ⟨hd, ?_⟩
    rw [getStoreAsParsedJson, hfile]
    dsimp only []
    have hu : unwrapData cfg data = none := by
      simp only [unwrapData, hcfg, hd]
    rw [hu]
  · intro h
    rw [decryptData.eq_def, if_neg (by omega)]
    dsimp only []
    cases openAEAD k (data.take 12) (data.drop 12) with
    | some pt =>
      dsimp only []
      split <;> rfl
    | none => rfl

/-- Witness for C10: the empty file content makes the decrypting read
panic, and a 12-byte content does not. -/
theorem decrypt_short_panics_witness :
    (decryptData [] (List.replicate 32 0) = none ∧
      getStoreAsParsedJson
        ⟨[109], [99], [106], [114], some (List.replicate 32 0), false⟩
        ⟨true, some []⟩ = none) ∧
    (decryptData (List.replicate 12 0) (List.replicate 32 0)).isSome :=
  ⟨(decrypt_short_panics [] (List.replicate 32 0)
      ⟨[109], [99], [106], [114], some (List.replicate 32 0), false⟩
      ⟨true, some []⟩ rfl rfl).1 (by decide),
   (decrypt_short_panics (List.replicate 12 0) (List.replicate 32 0)
      ⟨[109], [99], [106], [114], some (List.replicate 32 0), false⟩
      ⟨true, some (List.replicate 12 0)⟩ rfl rfl).2 (by decide)⟩

end Bland
